import Mathlib

/-
Shallow embedding of `src/organizer.py` (folder-organizer).

The filesystem visible to the script is modelled explicitly: the target
root directory is a list of immediate entries (name + is-directory flag),
and each category subfolder of the root carries the list of file names it
contains.  Python dictionaries are modelled as association lists with
insertion-order overwrite semantics, Python `str.lower`/`str.upper` as
per-character ASCII case mapping, `str.split('.')[-1]` as `splitOn`,
and `pathlib.Path.with_stem` via the stem/extension split that `pathlib`
uses (the last dot, provided it is neither the first character nor the
last).  Fallible I/O (`os.makedirs`, `shutil.move`) is modelled with
oracles `String → Bool` saying which operations raise, and `Except` for
the raised error, mirroring the `try/except` structure of the script.
Log writes are modelled as an append-only list of events.
-/

set_option maxRecDepth 100000

namespace FolderOrganizer

/-- Base name of the log file, `os.path.basename(LOG_FILE)`: the log file lives in the organized
directory under this fixed base name (organizer.py line 14). -/
def logBaseName : String := "file_organizer_log.txt"

/-- The `EXTENSION_MAP` table (organizer.py lines 17-41): category → extensions,
in source declaration order. -/
def EXTENSION_MAP : List (String × List String) :=
  [ ("Documents", ["pdf", "doc", "docx", "odt", "rtf", "tex", "txt", "wpd", "pages"]),
    ("Spreadsheets", ["xls", "xlsx", "xlsm", "ods", "csv"]),
    ("Presentations", ["ppt", "pptx", "odp", "key"]),
    ("Images", ["png", "jpg", "jpeg", "gif", "bmp", "svg", "webp", "tiff", "ico", "heic"]),
    ("Videos", ["mp4", "mov", "avi", "flv", "wmv", "mkv", "webm", "m4v", "mpg", "mpeg", "3gp"]),
    ("Audio", ["mp3", "wav", "flac", "aac", "ogg", "wma", "m4a", "aiff", "mid", "midi"]),
    ("Archives", ["zip", "rar", "7z", "tar", "gz", "bz2", "iso"]),
    ("Executables", ["exe", "msi", "bat", "sh", "app", "apk", "dmg"]),
    ("Code", ["py", "js", "html", "css", "java", "cpp", "c", "h", "php", "swift", "json", "xml", "sql", "rb", "go", "kt", "ts"]),
    ("Design", ["ai", "ps", "eps", "xd", "fig", "indd", "cdr", "sketch"]),
    ("Ebooks", ["epub", "mobi", "azw", "azw3", "fb2"]),
    ("Fonts", ["ttf", "otf", "woff", "woff2", "eot"]),
    ("System", ["dll", "sys", "ini", "cfg"]),
    ("Torrents", ["torrent"]),
    ("Logs", ["log", "txtlog"]),
    ("Temp Files", ["tmp", "bak", "old"]),
    ("Config Files", ["yml", "yaml", "toml", "env", "conf", "properties"]),
    ("Game Files", ["unitypackage", "asset", "prefab", "material"]),
    ("CAD Files", ["stl", "obj", "fbx", "dae", "3ds"]),
    ("Scripts", ["sh", "bat", "ps1", "cmd"]),
    ("Database", ["db", "sqlite", "mdb", "accdb"]),
    ("Web Files", ["html", "css", "js", "php", "xml"]),
    ("Other", []) ]

/-- Python dict assignment `d[k] = v`: overwrite the value at an existing
key in place, otherwise append the new binding. -/
def dictSet (d : List (String × String)) (k v : String) : List (String × String) :=
  if d.any (fun p => p.1 == k) then d.map (fun p => if p.1 == k then (k, v) else p)
  else d ++ [(k, v)]

/-- Python `d.get(k, dflt)` over the association-list dict model. -/
def dictGet (d : List (String × String)) (k dflt : String) : String :=
  match d with
  | [] => dflt
  | p :: rest => if p.1 == k then p.2 else dictGet rest k dflt

/-- The `FILE_EXTENSIONS` dict (organizer.py lines 44-46): the reverse mapping
extension → category, built by a dict comprehension that iterates
`EXTENSION_MAP` in declaration order, so a later category listing the
same extension overwrites the earlier binding. -/
def FILE_EXTENSIONS : List (String × String) :=
  EXTENSION_MAP.foldl (fun d p => p.2.foldl (fun d ext => dictSet d ext p.1) d) []

/-- Python `str.lower()` on the ASCII strings this program handles. -/
def pyLower (s : String) : String := String.mk (s.data.map Char.toLower)

/-- Python `str.upper()` on the ASCII strings this program handles. -/
def pyUpper (s : String) : String := String.mk (s.data.map Char.toUpper)

/-- Python `str.split('.')`: cut the character list at every dot,
keeping empty pieces. -/
def splitDot : List Char → List (List Char)
  | [] => [[]]
  | c :: rest =>
    if c = '.' then [] :: splitDot rest
    else
      match splitDot rest with
      | [] => [[c]]
      | g :: gs => (c :: g) :: gs

/-- Extension extraction `filename.split('.')[-1]` (organizer.py lines 74 and 141). -/
def extOf (name : String) : String := String.mk ((splitDot name.data).getLastD [])

/-- Python `'.' in filename` (organizer.py lines 73 and 140). -/
def hasDot (name : String) : Bool := name.data.contains '.'

/-- Python `filename.startswith(c)` for a single character. -/
def firstCharIs (name : String) (c : Char) : Bool :=
  match name.data with
  | [] => false
  | d :: _ => d == c

/-- Category resolution `FILE_EXTENSIONS.get(ext.lower(), "Other")` as
performed at organizer.py lines 74-75 and 141-142. -/
def resolve (e : String) : String := dictGet FILE_EXTENSIONS (pyLower e) "Other"

/-- Index of the last `'.'` in a list of characters, if any. -/
def lastDotIdx : List Char → Option Nat
  | [] => none
  | c :: rest =>
    match lastDotIdx rest with
    | some i => some (i + 1)
    | none => if c = '.' then some 0 else none

/-- The split point `pathlib` uses for `stem`/extension: the last dot,
provided it is neither the first nor the last character of the name. -/
def pySplitIdx (name : String) : Option Nat :=
  match lastDotIdx name.data with
  | some i => if 0 < i ∧ i + 1 < name.data.length then some i else none
  | none => none

/-- The rename `target_path.with_stem(f"{target_path.stem}_copy")` (organizer.py
line 106): insert `_copy` between the pathlib stem and extension. -/
def withStemCopy (name : String) : String :=
  match pySplitIdx name with
  | some i => String.mk (name.data.take i ++ "_copy".data ++ name.data.drop i)
  | none => name ++ "_copy"

/-- One immediate entry of the root directory at some instant: its base
name and whether it is a directory. -/
structure Entry where
  name : String
  isDir : Bool
deriving DecidableEq

/-- The modelled filesystem: the root's immediate entries (in listing
order) and, for each category subfolder of the root, the file names it
contains. -/
structure FS where
  rootEntries : List Entry
  folderFiles : List (String × List String)
deriving DecidableEq

/-- Directory test `os.path.isdir(root/name)`: look the name up among the root's
entries; a missing path is not a directory. -/
def dirLookup : List Entry → String → Bool
  | [], _ => false
  | e :: rest, n => if e.name == n then e.isDir else dirLookup rest n

/-- Existence test `os.path.exists(root/name)` restricted to the root's immediate
entries. -/
def nameExists : List Entry → String → Bool
  | [], _ => false
  | e :: rest, n => if e.name == n then true else nameExists rest n

/-- Contents of the category subfolder named `c` (empty if the folder is
absent from the model). -/
def filesLookup : List (String × List String) → String → List String
  | [], _ => []
  | p :: rest, c => if p.1 == c then p.2 else filesLookup rest c

/-- The predicate `should_skip` (organizer.py lines 88-96), on the entry's base name:
directories, the log file itself, hidden files (leading `.`) and
temporary files (leading `~`) are skipped. -/
def should_skip (fs : FS) (name : String) : Bool :=
  dirLookup fs.rootEntries name ||
    name == logBaseName ||
    firstCharIs name '.' ||
    firstCharIs name '~'

/-- Existence test `os.path.exists(root/category)` as used by the provisioner
(organizer.py line 80). -/
def pathExistsRoot (fs : FS) (name : String) : Bool :=
  nameExists fs.rootEntries name

/-- Collision test `target_path.exists()` (organizer.py line 105): the destination path
`root/category/name` is occupied. -/
def destExists (fs : FS) (category name : String) : Bool :=
  dirLookup fs.rootEntries category &&
    (filesLookup fs.folderFiles category).contains name

/-- The collision handling of organizer.py lines 105-106: rename the
destination once with `_copy` when the exact path is occupied. -/
def resolveCollision (fs : FS) (category name : String) : String :=
  if destExists fs category name then withStemCopy name else name

/-- Record a file name into a folder's contents; moving onto an occupied
name overwrites it, so name-wise the contents form a set. -/
def addName (l : List String) (n : String) : List String :=
  if l.contains n then l else l ++ [n]

/-- Update the contents of the category subfolder `c`. -/
def updateFolder (c tname : String) (ff : List (String × List String)) :
    List (String × List String) :=
  ff.map (fun p => if p.1 == c then (p.1, addName p.2 tname) else p)

/-- The mover `move_file` (organizer.py lines 99-114) with `DRY_RUN = False`: the
collision-adjusted target name is computed first, then `shutil.move`
runs; it raises (modelled by `Except.error`) when the destination folder
is missing or when the oracle `o` says the underlying move fails, and on
success the file leaves the root and enters the category folder. -/
def move_file (o : String → Bool) (fs : FS) (name category : String) :
    Except String (FS × String) :=
  let tname := resolveCollision fs category name
  if dirLookup fs.rootEntries category then
    if o name then Except.error "shutil.move failed"
    else Except.ok
      ({ rootEntries := fs.rootEntries.filter (fun e => e.name != name),
         folderFiles := updateFolder category tname fs.folderFiles }, tname)
  else Except.error "destination folder does not exist"

/-- Folder creation `os.makedirs(root/category)` on success: a fresh directory entry and
an empty contents record. -/
def mkFolder (fs : FS) (c : String) : FS :=
  { rootEntries := fs.rootEntries ++ [⟨c, true⟩],
    folderFiles := fs.folderFiles ++ [(c, [])] }

/-- A timestamped log line of `write_log`, abstracted to the event it
records. -/
inductive LogEvent where
  | createdFolder (category : String)
  | createFailed (category : String)
  | moved (name category : String)
  | moveFailed (name msg : String)
  | noExt (name : String)
deriving DecidableEq

/-- The first loop of `create_category_folders` (organizer.py lines
66-76): walk the listing and collect, set-like, the category of every
non-skipped name containing a dot. -/
def catsAux (fs : FS) : List String → List String → List String
  | [], acc => acc
  | n :: rest, acc =>
    if should_skip fs n then catsAux fs rest acc
    else if hasDot n then
      catsAux fs rest
        (if acc.contains (resolve (extOf n)) then acc
         else acc ++ [resolve (extOf n)])
    else catsAux fs rest acc

/-- The set `categories_to_create` of organizer.py lines 67-76. -/
def categoriesToCreate (fs : FS) : List String :=
  catsAux fs (fs.rootEntries.map Entry.name) []

/-- The body of the second loop of `create_category_folders` (organizer.py
lines 78-85): an existing folder is left untouched with no log entry;
otherwise `os.makedirs` runs, logging success or failure.  The oracle
`mk` says which creations raise. -/
def createStep (mk : String → Bool) (st : FS × List LogEvent) (category : String) :
    FS × List LogEvent :=
  if pathExistsRoot st.1 category then st
  else if mk category then (st.1, st.2 ++ [LogEvent.createFailed category])
  else (mkFolder st.1 category, st.2 ++ [LogEvent.createdFolder category])

/-- The provisioner `create_category_folders` (organizer.py lines 64-85). -/
def create_category_folders (mk : String → Bool) (fs : FS) : FS × List LogEvent :=
  (categoriesToCreate fs).foldl (createStep mk) (fs, [])

/-- The run counters of `organize_files` (organizer.py lines 127-129). -/
structure Counters where
  moved : Nat
  skipped : Nat
  errored : Nat
deriving DecidableEq

/-- Total number of counted entries. -/
def Counters.total (c : Counters) : Nat := c.moved + c.skipped + c.errored

/-- The loop body of `organize_files` (organizer.py lines 133-154): skip
per `should_skip`; names with a dot are resolved and moved inside a
`try/except` that converts a raised move into an errored count plus log
entries; dotless names are counted skipped with a distinct warning. -/
def processEntry (o : String → Bool) (st : FS × Counters × List LogEvent)
    (filename : String) : FS × Counters × List LogEvent :=
  if should_skip st.1 filename then
    (st.1, { st.2.1 with skipped := st.2.1.skipped + 1 }, st.2.2)
  else if hasDot filename then
    match move_file o st.1 filename (resolve (extOf filename)) with
    | Except.ok (fs2, _) =>
        (fs2, { st.2.1 with moved := st.2.1.moved + 1 },
          st.2.2 ++ [LogEvent.moved filename (resolve (extOf filename))])
    | Except.error msg =>
        (st.1, { st.2.1 with errored := st.2.1.errored + 1 },
          st.2.2 ++ [LogEvent.moveFailed filename msg])
  else
    (st.1, { st.2.1 with skipped := st.2.1.skipped + 1 },
      st.2.2 ++ [LogEvent.noExt filename])

/-- The outcome of one run: final filesystem, counters, log events. -/
structure RunResult where
  fs : FS
  counters : Counters
  log : List LogEvent
deriving DecidableEq

/-- The filesystem after `create_category_folders` has run. -/
def provisionedFS (mk : String → Bool) (fs : FS) : FS :=
  (create_category_folders mk fs).1

/-- The listing the processing loop actually iterates: `os.listdir`
taken at organizer.py line 131, after folder provisioning. -/
def iteratedSnapshot (mk : String → Bool) (fs : FS) : List String :=
  (provisionedFS mk fs).rootEntries.map Entry.name

/-- State after the processing loop of organizer.py lines 133-154. -/
def processedState (mk o : String → Bool) (fs : FS) :
    FS × Counters × List LogEvent :=
  (iteratedSnapshot mk fs).foldl (processEntry o)
    (provisionedFS mk fs, ⟨0, 0, 0⟩, [])

/-- The orchestrator `organize_files` (organizer.py lines 117-167): provision folders
(which takes its own listing), then list the root again (line 131) and
fold the per-entry processing over that second listing. -/
def organize_files (mk o : String → Bool) (fs : FS) : RunResult :=
  ⟨(processedState mk o fs).1, (processedState mk o fs).2.1,
    (create_category_folders mk fs).2 ++ (processedState mk o fs).2.2⟩

/-- The run as invoked from `__main__`: a failure of the very first root
listing (`os.listdir`) propagates out of `organize_files` to the caller,
while everything else yields a normal summary. -/
def runOrganize (mk o : String → Bool) (scan : Except String FS) :
    Except String RunResult :=
  match scan with
  | Except.error e => Except.error e
  | Except.ok fs => Except.ok (organize_files mk o fs)

/-- Oracle for runs where no filesystem operation fails. -/
def alwaysOk : String → Bool := fun _ => false

/-- The root directory of the spec's reference scenario: exactly
`report.pdf`, `photo.JPG`, `.hidden`, `notes`, `archive.zip`. -/
def fsC1 : FS :=
  ⟨[⟨"report.pdf", false⟩, ⟨"photo.JPG", false⟩, ⟨".hidden", false⟩,
    ⟨"notes", false⟩, ⟨"archive.zip", false⟩], []⟩

/-- A root with a single classifiable file. -/
def fsC3 : FS := ⟨[⟨"a.pdf", false⟩], []⟩

/-- A root whose `Documents` folder already holds `a.txt`, while another
`a.txt` waits in the root. -/
def fsC6 : FS :=
  ⟨[⟨"Documents", true⟩, ⟨"a.txt", false⟩], [("Documents", ["a.txt"])]⟩

/-- A root with one file whose move will fail and one that will succeed. -/
def fsC8 : FS := ⟨[⟨"bad.pdf", false⟩, ⟨"good.zip", false⟩], []⟩

/-- Oracle failing exactly the move of `bad.pdf`. -/
def oBad : String → Bool := fun n => n == "bad.pdf"

/-- A root containing only a file whose name ends in a dot. -/
def fsC10 : FS := ⟨[⟨"notes.", false⟩], []⟩

/-- All extensions mentioned anywhere in `EXTENSION_MAP`. -/
def allExts : List String := EXTENSION_MAP.foldl (fun acc p => acc ++ p.2) []

/-- The categories listing a given extension, in declaration order. -/
def categoriesListing (e : String) : List (String × List String) :=
  EXTENSION_MAP.filter (fun p => p.2.contains e)

/-- The extensions listed under more than one category. -/
def dupList : List String := ["sh", "bat", "html", "css", "js", "php", "xml"]

/- ------------------------------------------------------------------ -/
/- Helper lemmas                                                      -/
/- ------------------------------------------------------------------ -/

theorem processEntry_total (o : String → Bool)
    (st : FS × Counters × List LogEvent) (n : String) :
    ((processEntry o st n).2.1).total = (st.2.1).total + 1 := by
  unfold processEntry
  split
  · simp only [Counters.total]
    omega
  · split
    · split
      · simp only [Counters.total]
        omega
      · simp only [Counters.total]
        omega
    · simp only [Counters.total]
      omega

theorem foldl_processEntry_total (o : String → Bool) (files : List String) :
    ∀ st : FS × Counters × List LogEvent,
      ((files.foldl (processEntry o) st).2.1).total = (st.2.1).total + files.length := by
  induction files with
  | nil => intro st; simp
  | cons n rest ih =>
    intro st
    simp only [List.foldl_cons, List.length_cons]
    rw [ih, processEntry_total]
    omega

theorem organize_total (mk o : String → Bool) (fs : FS) :
    (organize_files mk o fs).counters.total = (iteratedSnapshot mk fs).length := by
  show ((processedState mk o fs).2.1).total = _
  unfold processedState
  rw [foldl_processEntry_total]
  simp [Counters.total]

theorem dictGet_not_mem (d : List (String × String)) (k dflt : String)
    (h : k ∉ d.map Prod.fst) : dictGet d k dflt = dflt := by
  induction d with
  | nil => rfl
  | cons p rest ih =>
    simp only [List.map_cons, List.mem_cons, not_or] at h
    have hne : (p.1 == k) = false := by
      simp only [beq_eq_false_iff_ne, ne_eq]
      exact fun hEq => h.1 hEq.symm
    show (if p.1 == k then p.2 else dictGet rest k dflt) = dflt
    rw [hne]
    simp only [Bool.false_eq_true, if_false]
    exact ih h.2

theorem dirLookup_mem_nodup (l : List Entry) (e : Entry)
    (hm : e ∈ l) (hnd : (l.map Entry.name).Nodup) :
    dirLookup l e.name = e.isDir := by
  induction l with
  | nil => cases hm
  | cons a rest ih =>
    rw [List.map_cons, List.nodup_cons] at hnd
    rcases List.mem_cons.mp hm with h | h
    · rw [h]
      show (if a.name == a.name then a.isDir else dirLookup rest a.name) = a.isDir
      simp
    · have hname : e.name ∈ rest.map Entry.name := List.mem_map_of_mem _ h
      have hne : (a.name == e.name) = false := by
        simp only [beq_eq_false_iff_ne, ne_eq]
        intro hEq
        exact hnd.1 (hEq ▸ hname)
      show (if a.name == e.name then a.isDir else dirLookup rest e.name) = e.isDir
      rw [hne]
      simp only [Bool.false_eq_true, if_false]
      exact ih h hnd.2

theorem filesLookup_key_of_contains (ff : List (String × List String)) (c n : String)
    (h : (filesLookup ff c).contains n = true) : c ∈ ff.map Prod.fst := by
  induction ff with
  | nil => simp [filesLookup] at h
  | cons p rest ih =>
    rw [List.map_cons]
    by_cases hc : p.1 = c
    · exact List.mem_cons.mpr (Or.inl hc.symm)
    · refine List.mem_cons.mpr (Or.inr (ih ?_))
      have hne : (p.1 == c) = false := by
        simp only [beq_eq_false_iff_ne, ne_eq]
        exact hc
      rw [show filesLookup (p :: rest) c
          = (if p.1 == c then p.2 else filesLookup rest c) from rfl, hne] at h
      simpa using h

theorem filesLookup_updateFolder (ff : List (String × List String)) (c t : String)
    (h : c ∈ ff.map Prod.fst) :
    filesLookup (updateFolder c t ff) c = addName (filesLookup ff c) t := by
  induction ff with
  | nil => simp at h
  | cons p rest ih =>
    by_cases hc : p.1 = c
    · have hb : (p.1 == c) = true := by simpa using hc
      simp only [updateFolder, List.map_cons, hb, if_true]
      show (if p.1 == c then addName p.2 t else _) = addName (filesLookup (p :: rest) c) t
      rw [hb]
      simp only [if_true]
      rw [show filesLookup (p :: rest) c
          = (if p.1 == c then p.2 else filesLookup rest c) from rfl, hb]
      simp
    · have hb : (p.1 == c) = false := by
        simp only [beq_eq_false_iff_ne, ne_eq]
        exact hc
      have h' : c ∈ rest.map Prod.fst := by
        rcases List.mem_cons.mp (List.map_cons Prod.fst p rest ▸ h) with h1 | h2
        · exact absurd h1.symm hc
        · exact h2
      simp only [updateFolder, List.map_cons, hb, Bool.false_eq_true, if_false]
      show (if p.1 == c then p.2 else filesLookup (List.map _ rest) c)
          = addName (filesLookup (p :: rest) c) t
      rw [hb]
      simp only [Bool.false_eq_true, if_false]
      rw [show filesLookup (p :: rest) c
          = (if p.1 == c then p.2 else filesLookup rest c) from rfl, hb]
      simp only [Bool.false_eq_true, if_false]
      exact ih h'

theorem nameExists_append (l1 l2 : List Entry) (n : String) :
    nameExists (l1 ++ l2) n = (nameExists l1 n || nameExists l2 n) := by
  induction l1 with
  | nil => simp [nameExists]
  | cons e rest ih =>
    by_cases h : (e.name == n) = true
    · simp [nameExists, h]
    · simp only [List.cons_append, nameExists, if_neg h]
      exact ih

theorem dirLookup_append_left (l1 l2 : List Entry) (n : String)
    (h : nameExists l1 n = true) :
    dirLookup (l1 ++ l2) n = dirLookup l1 n := by
  induction l1 with
  | nil => simp [nameExists] at h
  | cons e rest ih =>
    by_cases hc : (e.name == n) = true
    · simp [dirLookup, hc]
    · simp only [List.cons_append, dirLookup, if_neg hc]
      apply ih
      have h' : e.name = n ∨ nameExists rest n = true := by
        simpa [nameExists] using h
      rcases h' with h'' | h''
      · exact absurd (by simp [h'']) hc
      · exact h''

theorem dirLookup_append_right (l1 l2 : List Entry) (n : String)
    (h : nameExists l1 n = false) :
    dirLookup (l1 ++ l2) n = dirLookup l2 n := by
  induction l1 with
  | nil => simp
  | cons e rest ih =>
    simp only [nameExists] at h
    split at h
    · cases h
    · rename_i hcond
      simp only [List.cons_append, dirLookup, if_neg hcond]
      exact ih h

theorem dirLookup_of_all_dir (l : List Entry) (n : String)
    (hall : ∀ e ∈ l, e.isDir = true) (h : nameExists l n = true) :
    dirLookup l n = true := by
  induction l with
  | nil => simp [nameExists] at h
  | cons e rest ih =>
    by_cases hc : (e.name == n) = true
    · simp [dirLookup, hc, hall e (List.mem_cons_self _ _)]
    · simp only [dirLookup, if_neg hc]
      apply ih (fun x hx => hall x (List.mem_cons_of_mem _ hx))
      have h' : e.name = n ∨ nameExists rest n = true := by
        simpa [nameExists] using h
      rcases h' with h'' | h''
      · exact absurd (by simp [h'']) hc
      · exact h''

theorem nameExists_of_mem (l : List Entry) (e : Entry) (h : e ∈ l) :
    nameExists l e.name = true := by
  induction l with
  | nil => cases h
  | cons a rest ih =>
    rcases List.mem_cons.mp h with h' | h'
    · rw [h']
      simp [nameExists]
    · by_cases hc : (a.name == e.name) = true
      · simp [nameExists, hc]
      · simp only [nameExists, if_neg hc]
        exact ih h'

theorem nameExists_of_mem_map (l : List Entry) (n : String)
    (h : n ∈ l.map Entry.name) : nameExists l n = true := by
  rcases List.mem_map.mp h with ⟨e, he, rfl⟩
  exact nameExists_of_mem l e he

theorem foldl_createStep_ex (mk : String → Bool) (cats : List String) :
    ∀ st : FS × List LogEvent, ∃ ex : List Entry,
      ((cats.foldl (createStep mk) st).1).rootEntries = st.1.rootEntries ++ ex ∧
      ∀ e ∈ ex, e.isDir = true ∧ nameExists st.1.rootEntries e.name = false := by
  induction cats with
  | nil =>
    intro st
    exact ⟨[], by simp, by simp⟩
  | cons c rest ih =>
    intro st
    simp only [List.foldl_cons]
    by_cases hex0 : pathExistsRoot st.1 c = true
    · rw [show createStep mk st c = st from by
        unfold createStep; rw [if_pos hex0]]
      exact ih st
    · by_cases hmk : mk c = true
      · rw [show createStep mk st c = (st.1, st.2 ++ [LogEvent.createFailed c]) from by
          unfold createStep; rw [if_neg hex0, if_pos hmk]]
        exact ih (st.1, st.2 ++ [LogEvent.createFailed c])
      · rw [show createStep mk st c
            = (mkFolder st.1 c, st.2 ++ [LogEvent.createdFolder c]) from by
          unfold createStep; rw [if_neg hex0, if_neg hmk]]
        have hnex := hex0
        obtain ⟨ex, h1, h2⟩ := ih (mkFolder st.1 c, st.2 ++ [LogEvent.createdFolder c])
        refine ⟨⟨c, true⟩ :: ex, ?_, ?_⟩
        · rw [h1]
          simp [mkFolder]
        · intro e he
          rcases List.mem_cons.mp he with h' | h'
          · rw [h']
            refine ⟨rfl, ?_⟩
            show nameExists st.1.rootEntries c = false
            simp only [pathExistsRoot] at hnex
            cases hx : nameExists st.1.rootEntries c
            · rfl
            · exact absurd hx hnex
          · obtain ⟨hd, hne⟩ := h2 e h'
            refine ⟨hd, ?_⟩
            rw [show (mkFolder st.1 c, st.2 ++ [LogEvent.createdFolder c]).1.rootEntries
                = st.1.rootEntries ++ [⟨c, true⟩] from rfl, nameExists_append] at hne
            cases hx : nameExists st.1.rootEntries e.name
            · rfl
            · rw [hx] at hne
              simp at hne

theorem foldl_createStep_exists_mono (mk : String → Bool) (cats : List String) :
    ∀ (st : FS × List LogEvent) (c : String), pathExistsRoot st.1 c = true →
      pathExistsRoot ((cats.foldl (createStep mk) st).1) c = true := by
  induction cats with
  | nil =>
    intro st c h
    exact h
  | cons d rest ih =>
    intro st c h
    simp only [List.foldl_cons]
    apply ih
    unfold createStep
    split
    · exact h
    · split
      · exact h
      · show nameExists (st.1.rootEntries ++ [⟨d, true⟩]) c = true
        rw [nameExists_append]
        simp only [pathExistsRoot] at h
        rw [h]
        rfl

theorem foldl_createStep_mem (cats : List String) :
    ∀ (st : FS × List LogEvent) (c : String), c ∈ cats →
      pathExistsRoot ((cats.foldl (createStep alwaysOk) st).1) c = true := by
  induction cats with
  | nil =>
    intro st c h
    cases h
  | cons d rest ih =>
    intro st c hc
    simp only [List.foldl_cons]
    rcases List.mem_cons.mp hc with h' | h'
    · apply foldl_createStep_exists_mono
      rw [h']
      unfold createStep
      split
      · rename_i hex
        exact hex
      · split
        · rename_i hmk
          simp [alwaysOk] at hmk
        · show nameExists (st.1.rootEntries ++ [⟨d, true⟩]) d = true
          rw [nameExists_append]
          simp [nameExists]
    · exact ih _ c h'

theorem foldl_createStep_id (mk : String → Bool) (cats : List String) :
    ∀ st : FS × List LogEvent, (∀ c ∈ cats, pathExistsRoot st.1 c = true) →
      cats.foldl (createStep mk) st = st := by
  induction cats with
  | nil =>
    intro st _
    rfl
  | cons d rest ih =>
    intro st h
    simp only [List.foldl_cons]
    have hstep : createStep mk st d = st := by
      unfold createStep
      rw [if_pos (h d (List.mem_cons_self _ _))]
    rw [hstep]
    exact ih st (fun c hc => h c (List.mem_cons_of_mem _ hc))

theorem catsAux_congr (fsA fsB : FS) : ∀ names : List String,
    (∀ n ∈ names, should_skip fsA n = should_skip fsB n) →
    ∀ acc, catsAux fsA names acc = catsAux fsB names acc := by
  intro names
  induction names with
  | nil =>
    intro _ acc
    rfl
  | cons n rest ih =>
    intro h acc
    have hh := h n (List.mem_cons_self _ _)
    have ht : ∀ m ∈ rest, should_skip fsA m = should_skip fsB m :=
      fun m hm => h m (List.mem_cons_of_mem _ hm)
    simp only [catsAux]
    rw [hh]
    split
    · exact ih ht acc
    · split
      · exact ih ht _
      · exact ih ht acc

theorem catsAux_skip_all (fs : FS) : ∀ names : List String,
    (∀ n ∈ names, should_skip fs n = true) →
    ∀ acc, catsAux fs names acc = acc := by
  intro names
  induction names with
  | nil =>
    intro _ acc
    rfl
  | cons n rest ih =>
    intro h acc
    simp only [catsAux]
    rw [if_pos (h n (List.mem_cons_self _ _))]
    exact ih (fun m hm => h m (List.mem_cons_of_mem _ hm)) acc

theorem catsAux_append_skip (fs : FS) (names2 : List String)
    (h : ∀ n ∈ names2, should_skip fs n = true) :
    ∀ (names1 : List String) (acc : List String),
      catsAux fs (names1 ++ names2) acc = catsAux fs names1 acc := by
  intro names1
  induction names1 with
  | nil =>
    intro acc
    simp only [List.nil_append]
    exact catsAux_skip_all fs names2 h acc
  | cons n rest ih =>
    intro acc
    simp only [List.cons_append, catsAux]
    split
    · exact ih acc
    · split
      · exact ih _
      · exact ih acc

theorem categoriesToCreate_provisionedFS (fs : FS) :
    categoriesToCreate (provisionedFS alwaysOk fs) = categoriesToCreate fs := by
  obtain ⟨ex, hroot, hex⟩ :=
    foldl_createStep_ex alwaysOk (categoriesToCreate fs) (fs, [])
  have hroot' : (provisionedFS alwaysOk fs).rootEntries = fs.rootEntries ++ ex := hroot
  have hskip : ∀ n ∈ ex.map Entry.name,
      should_skip (provisionedFS alwaysOk fs) n = true := by
    intro n hn
    rcases List.mem_map.mp hn with ⟨e, he, rfl⟩
    have hdl : dirLookup (provisionedFS alwaysOk fs).rootEntries e.name = true := by
      rw [hroot', dirLookup_append_right _ _ _ (hex e he).2]
      exact dirLookup_of_all_dir ex e.name (fun x hx => (hex x hx).1)
        (nameExists_of_mem ex e he)
    unfold should_skip
    rw [hdl]
    rfl
  have hcongr : ∀ n ∈ fs.rootEntries.map Entry.name,
      should_skip (provisionedFS alwaysOk fs) n = should_skip fs n := by
    intro n hn
    unfold should_skip
    rw [hroot', dirLookup_append_left _ _ _ (nameExists_of_mem_map _ _ hn)]
  unfold categoriesToCreate
  rw [hroot', List.map_append]
  rw [catsAux_append_skip _ _ hskip]
  exact catsAux_congr _ _ _ hcongr []

theorem addName_contains_self (l : List String) (n : String) :
    (addName l n).contains n = true := by
  unfold addName
  split
  · assumption
  · have : n ∈ l ++ [n] := by simp
    exact List.elem_eq_true_of_mem this

theorem addName_contains_of_mem (l : List String) (t n : String)
    (h : l.contains n = true) : (addName l t).contains n = true := by
  unfold addName
  split
  · exact h
  · have : n ∈ l ++ [t] := List.mem_append_left _ (List.mem_of_elem_eq_true h)
    exact List.elem_eq_true_of_mem this

/- ------------------------------------------------------------------ -/
/- Claim theorems                                                     -/
/- ------------------------------------------------------------------ -/

/-- C1 (counterexample): on a root containing exactly `report.pdf`,
`photo.JPG`, `.hidden`, `notes`, `archive.zip`, the run does NOT finish
with counters moved=3, skipped=2, errored=0 as the claim states: the
processing listing is taken after folder provisioning, so the three
freshly created category folders are also iterated and skipped. -/
theorem scenario_counters_counterexample :
    (organize_files alwaysOk alwaysOk fsC1).counters ≠ ⟨3, 2, 0⟩ := by
  decide

/-- C1 (amended): on that root the run moves `report.pdf` to Documents,
`photo.JPG` to Images, `archive.zip` to Archives, skips `.hidden` as
filtered and `notes` as unclassifiable (distinct no-extension warning),
and also counts as skipped the three category folders the provisioner
just created (they appear in the processing listing and are
directories); the final counters are moved=3, skipped=5, errored=0. -/
theorem scenario_run_amended :
    (organize_files alwaysOk alwaysOk fsC1).counters = ⟨3, 5, 0⟩ ∧
    (organize_files alwaysOk alwaysOk fsC1).log =
      [LogEvent.createdFolder "Documents", LogEvent.createdFolder "Images",
       LogEvent.createdFolder "Archives",
       LogEvent.moved "report.pdf" "Documents",
       LogEvent.moved "photo.JPG" "Images",
       LogEvent.noExt "notes",
       LogEvent.moved "archive.zip" "Archives"] ∧
    filesLookup (organize_files alwaysOk alwaysOk fsC1).fs.folderFiles "Documents"
      = ["report.pdf"] ∧
    filesLookup (organize_files alwaysOk alwaysOk fsC1).fs.folderFiles "Images"
      = ["photo.JPG"] ∧
    filesLookup (organize_files alwaysOk alwaysOk fsC1).fs.folderFiles "Archives"
      = ["archive.zip"] ∧
    (organize_files alwaysOk alwaysOk fsC1).fs.rootEntries.contains ⟨".hidden", false⟩
      = true ∧
    (organize_files alwaysOk alwaysOk fsC1).fs.rootEntries.contains ⟨"notes", false⟩
      = true := by
  decide

/-- C2: at the end of every run the three counters sum to the number of
entries in the directory listing the loop iterated, the empty directory
yields all-zero counters, and every processed entry increments exactly
one counter (each loop step raises the total by exactly one). -/
theorem counter_conservation (mk o : String → Bool) (fs : FS)
    (st : FS × Counters × List LogEvent) (n : String) :
    (organize_files mk o fs).counters.total = (iteratedSnapshot mk fs).length ∧
    (organize_files mk o ⟨[], []⟩).counters = ⟨0, 0, 0⟩ ∧
    ((processEntry o st n).2.1).total = (st.2.1).total + 1 :=
  ⟨organize_total mk o fs, rfl, processEntry_total o st n⟩

/-- C3 (counterexample): the set of entries the processing loop iterates
is NOT the run-start snapshot: on a root holding only `a.pdf`, the loop
also observes the `Documents` folder that the provisioner created after
the run started. -/
theorem single_snapshot_counterexample :
    iteratedSnapshot alwaysOk fsC3 ≠ fsC3.rootEntries.map Entry.name ∧
    "Documents" ∈ iteratedSnapshot alwaysOk fsC3 ∧
    "Documents" ∉ fsC3.rootEntries.map Entry.name := by
  decide

/-- C3 (amended): each run takes two directory listings — the
provisioner lists the root to decide which folders to create, and the
processing loop lists it a second time after provisioning — so category
folders created by the provisioner are observed by the processing loop
and counted as skipped directories. -/
theorem two_listings_amended :
    iteratedSnapshot alwaysOk fsC3 = ["a.pdf", "Documents"] ∧
    fsC3.rootEntries.map Entry.name = ["a.pdf"] ∧
    categoriesToCreate fsC3 = ["Documents"] ∧
    (create_category_folders alwaysOk fsC3).2 = [LogEvent.createdFolder "Documents"] ∧
    (organize_files alwaysOk alwaysOk fsC3).counters = ⟨1, 1, 0⟩ := by
  decide

/-- C8: failures are isolated per file — every run accounts for every
iterated entry no matter which moves fail (no failure aborts the loop),
only a failing root scan propagates out, and concretely a run where
`bad.pdf` fails still moves the later `good.zip`, logging the failure
and counting it as errored. -/
theorem failure_isolation (mk o : String → Bool) (fs : FS) (e : String) :
    (organize_files mk o fs).counters.total = (iteratedSnapshot mk fs).length ∧
    runOrganize mk o (Except.error e) = Except.error e ∧
    (organize_files alwaysOk oBad fsC8).counters = ⟨1, 2, 1⟩ ∧
    (organize_files alwaysOk oBad fsC8).log =
      [LogEvent.createdFolder "Documents", LogEvent.createdFolder "Archives",
       LogEvent.moveFailed "bad.pdf" "shutil.move failed",
       LogEvent.moved "good.zip" "Archives"] :=
  ⟨organize_total mk o fs, rfl, by decide, by decide⟩

/-- C9: the extensions listed under more than one category are exactly
`sh`, `bat`, `html`, `css`, `js`, `php`, `xml`; each of them resolves to
the category listed last in `EXTENSION_MAP` declaration order, because
the reverse-map dict comprehension lets later entries overwrite earlier
ones — in particular `sh` and `bat` go to Scripts (not Executables) and
`html`, `css`, `js`, `php`, `xml` go to Web Files (not Code). -/
theorem duplicate_extension_last_wins :
    (allExts.all fun e =>
      decide (2 ≤ (categoriesListing e).length) == dupList.contains e) = true ∧
    (dupList.all fun e =>
      ((categoriesListing e).getLast?.map Prod.fst == some (resolve e)) &&
        decide (2 ≤ (categoriesListing e).length)) = true ∧
    resolve "sh" = "Scripts" ∧ resolve "bat" = "Scripts" ∧
    resolve "html" = "Web Files" ∧ resolve "css" = "Web Files" ∧
    resolve "js" = "Web Files" ∧ resolve "php" = "Web Files" ∧
    resolve "xml" = "Web Files" := by
  decide

/-- C10: a file named `notes.` (trailing dot, empty extension) is not
skipped and not given the no-extension treatment: its name contains a
dot, its empty extension misses the table, so it is classified under the
fallback category Other and a move is attempted (and here succeeds);
no no-extension warning is logged. -/
theorem trailing_dot_goes_to_other :
    should_skip fsC10 "notes." = false ∧
    hasDot "notes." = true ∧
    extOf "notes." = "" ∧
    resolve (extOf "notes.") = "Other" ∧
    (organize_files alwaysOk alwaysOk fsC10).log =
      [LogEvent.createdFolder "Other", LogEvent.moved "notes." "Other"] ∧
    (organize_files alwaysOk alwaysOk fsC10).counters = ⟨1, 1, 0⟩ ∧
    filesLookup (organize_files alwaysOk alwaysOk fsC10).fs.folderFiles "Other"
      = ["notes."] := by
  decide

/-- C7: folder provisioning is idempotent — after one provisioning pass
(with no creation failures), running `create_category_folders` again
against the resulting root performs no creation and emits no log entry
at all, whatever the second pass's creation oracle: every category
folder it would need already exists. -/
theorem provisioning_idempotent (fs : FS) (mk : String → Bool) :
    create_category_folders mk (create_category_folders alwaysOk fs).1 =
      ((create_category_folders alwaysOk fs).1, []) := by
  show (categoriesToCreate (provisionedFS alwaysOk fs)).foldl (createStep mk)
      (provisionedFS alwaysOk fs, []) = (provisionedFS alwaysOk fs, [])
  rw [categoriesToCreate_provisionedFS]
  apply foldl_createStep_id
  intro c hc
  exact foldl_createStep_mem (categoriesToCreate fs) (fs, []) c hc

/-- C4: category resolution is total (a plain function with no error
path), case-insensitive on every extension present in the table, and
returns the fixed fallback category "Other" for every extension whose
lowercasing is absent from the table. -/
theorem resolve_total_case_insensitive (e : String) :
    (e ∈ FILE_EXTENSIONS.map Prod.fst → resolve e = resolve (pyUpper e)) ∧
    (pyLower e ∉ FILE_EXTENSIONS.map Prod.fst → resolve e = "Other") := by
  constructor
  · intro h
    exact (by decide :
      ∀ x ∈ FILE_EXTENSIONS.map Prod.fst, resolve x = resolve (pyUpper x)) e h
  · intro h
    exact dictGet_not_mem FILE_EXTENSIONS (pyLower e) "Other" h

/-- Witness for C4 at the present extension `pdf` and the absent
extension `xyz`. -/
theorem resolve_total_case_insensitive_witness :
    ("pdf" ∈ FILE_EXTENSIONS.map Prod.fst ∧ resolve "pdf" = resolve (pyUpper "pdf")) ∧
    (pyLower "xyz" ∉ FILE_EXTENSIONS.map Prod.fst ∧ resolve "xyz" = "Other") :=
  ⟨⟨by decide, (resolve_total_case_insensitive "pdf").1 (by decide)⟩,
   ⟨by decide, (resolve_total_case_insensitive "xyz").2 (by decide)⟩⟩

/-- A two-entry root used to witness the skip-predicate
characterization. -/
def fsC5 : FS := ⟨[⟨"notes", false⟩, ⟨"Documents", true⟩], []⟩

/-- C5: for every entry of the root (looked up by its unique base name),
`should_skip` is true exactly when the entry is a directory, or its base
name is the log file's base name, or it starts with `.`, or it starts
with `~`. -/
theorem should_skip_characterization (fs : FS) (e : Entry)
    (hm : e ∈ fs.rootEntries) (hnd : (fs.rootEntries.map Entry.name).Nodup) :
    (should_skip fs e.name = true ↔
      (e.isDir = true ∨ e.name = logBaseName ∨
       firstCharIs e.name '.' = true ∨ firstCharIs e.name '~' = true)) := by
  unfold should_skip
  rw [dirLookup_mem_nodup fs.rootEntries e hm hnd]
  simp [beq_iff_eq, or_assoc]

/-- Witness for C5 at the directory entry `Documents` of a concrete
root. -/
theorem should_skip_characterization_witness :
    ((⟨"Documents", true⟩ : Entry) ∈ fsC5.rootEntries) ∧
    (fsC5.rootEntries.map Entry.name).Nodup ∧
    (should_skip fsC5 "Documents" = true ↔
      (true = true ∨ "Documents" = logBaseName ∨
       firstCharIs "Documents" '.' = true ∨ firstCharIs "Documents" '~' = true)) :=
  ⟨by decide, by decide,
   should_skip_characterization fsC5 ⟨"Documents", true⟩ (by decide) (by decide)⟩

/-- C6: when the destination path is already occupied, the mover renames
the destination by inserting `_copy` before the extension and performs
the move there, so afterwards the category folder contains both the old
occupant and the `_copy`-named newcomer (neither is dropped); and the
strategy is applied exactly once per move — every computed destination
name is either the original name or its single `_copy` variant, never
more. -/
theorem move_file_collision (o : String → Bool) (fs : FS) (category name : String)
    (hcol : destExists fs category name = true) (hok : o name = false) :
    (∃ fs2, move_file o fs name category = Except.ok (fs2, withStemCopy name) ∧
       (filesLookup fs2.folderFiles category).contains name = true ∧
       (filesLookup fs2.folderFiles category).contains (withStemCopy name) = true) ∧
    (∀ (fs3 : FS) (c3 n3 : String),
       resolveCollision fs3 c3 n3 = n3 ∨
         resolveCollision fs3 c3 n3 = withStemCopy n3) := by
  have hpair : dirLookup fs.rootEntries category = true ∧
      (filesLookup fs.folderFiles category).contains name = true := by
    simpa [destExists, Bool.and_eq_true] using hcol
  have hdir : dirLookup fs.rootEntries category = true := hpair.1
  have hmem : (filesLookup fs.folderFiles category).contains name = true := hpair.2
  have hkey : category ∈ fs.folderFiles.map Prod.fst :=
    filesLookup_key_of_contains _ _ _ hmem
  have htn : resolveCollision fs category name = withStemCopy name := by
    unfold resolveCollision
    rw [hcol]
    rfl
  constructor
  · refine ⟨⟨fs.rootEntries.filter (fun e => e.name != name),
        updateFolder category (withStemCopy name) fs.folderFiles⟩, ?_, ?_, ?_⟩
    · unfold move_file
      rw [htn, hdir, hok]
      rfl
    · show (filesLookup (updateFolder category (withStemCopy name) fs.folderFiles)
        category).contains name = true
      rw [filesLookup_updateFolder _ _ _ hkey]
      exact addName_contains_of_mem _ _ _ hmem
    · show (filesLookup (updateFolder category (withStemCopy name) fs.folderFiles)
        category).contains (withStemCopy name) = true
      rw [filesLookup_updateFolder _ _ _ hkey]
      exact addName_contains_self _ _
  · intro fs3 c3 n3
    unfold resolveCollision
    split
    · right; rfl
    · left; rfl

/-- Witness for C6: moving a new `a.txt` into a `Documents` folder that
already holds `a.txt` lands it at `a_copy.txt`, with both files
present afterwards. -/
theorem move_file_collision_witness :
    destExists fsC6 "Documents" "a.txt" = true ∧
    alwaysOk "a.txt" = false ∧
    withStemCopy "a.txt" = "a_copy.txt" ∧
    ((∃ fs2, move_file alwaysOk fsC6 "a.txt" "Documents" =
        Except.ok (fs2, withStemCopy "a.txt") ∧
       (filesLookup fs2.folderFiles "Documents").contains "a.txt" = true ∧
       (filesLookup fs2.folderFiles "Documents").contains (withStemCopy "a.txt") = true) ∧
     (∀ (fs3 : FS) (c3 n3 : String),
        resolveCollision fs3 c3 n3 = n3 ∨
          resolveCollision fs3 c3 n3 = withStemCopy n3)) :=
  ⟨by decide, rfl, by decide,
   move_file_collision alwaysOk fsC6 "Documents" "a.txt" (by decide) rfl⟩

end FolderOrganizer
